/-
  Verification of the spaces-tracker sourcemap mirroring pipeline
  (src/main.js) against its natural-language specification.

  The JavaScript source is shallowly embedded: pure functions become Lean
  functions, the filesystem becomes an explicit association-list state,
  fetch results become an inductive datatype, and JavaScript exceptions
  become `Except String`.  The MD5 content hash (`getFileHash`) is kept
  abstract as a function parameter `hash : String → String`: the code only
  ever compares digests for equality, so every claim is stated for an
  arbitrary hash function.
-/
import Mathlib

namespace SpacesTracker

/-! ## Data model -/

/-- One file reconciled against the local mirror (the object pushed onto
`results.files` in `downloadAndExtractSourcemap`).  `previousModified`
models the JS `previousModified` field (`null` ↦ `none`, a `Date` ↦ its
millisecond timestamp). -/
structure FileOutcome where
  path : String
  isChanged : Bool
  previousModified : Option Int := none
deriving Repr, DecidableEq

/-- The per-URL result object built by `downloadAndExtractSourcemap`. -/
structure ExtractionOutcome where
  url : String
  success : Bool
  files : List FileOutcome
  error : Option String
deriving Repr, DecidableEq

/-- A decoded sourcemap body.  `sources`/`sourcesContent` are `none` when
the corresponding field is missing from the JSON (the `!sourcemap.sources`
check); an inner `none` in `sourcesContent` is a JSON `null` entry. -/
structure SourcemapDoc where
  sources : Option (List String)
  sourcesContent : Option (List (Option String))
deriving Repr, DecidableEq

/-- Result of `fetch(url)`: either a transport-level exception (rejected
promise, caught by the `try`), or a response with an HTTP status whose
body decodes (`req.json()`) to a sourcemap or throws a parse error. -/
inductive FetchResult where
  | transportError (msg : String)
  | response (status : Nat) (body : Except String SourcemapDoc)
deriving Repr

/-- `Response.ok`: status in the range 200–299. -/
def httpOk (status : Nat) : Bool := 200 ≤ status && status ≤ 299

/-! ## Filesystem model

The local mirror is an association list from path to file entry; directories
are implicit (as `fs.mkdir … recursive` makes them on demand).  `readError`
injects an I/O failure for `fs.readFile` on that path, so that the
exception path of the `try/catch` is representable. -/

structure FileEntry where
  content : String
  mtime : Int
  readError : Option String := none
deriving Repr, DecidableEq

abbrev FS := List (String × FileEntry)

def FS.lookup (fs : FS) (p : String) : Option FileEntry :=
  (fs.find? (fun e => e.1 == p)).map (·.2)

/-- `fileExists`: `fs.access` succeeding ↦ the path is present. -/
def fileExists (fs : FS) (p : String) : Bool :=
  (FS.lookup fs p).isSome

/-- `fs.readFile(path, 'utf-8')`: throws if absent or faulted. -/
def FS.readText (fs : FS) (p : String) : Except String String :=
  match FS.lookup fs p with
  | none => Except.error ("ENOENT: " ++ p)
  | some e =>
    match e.readError with
    | some m => Except.error m
    | none => Except.ok e.content

/-- `(await fs.stat(path)).mtime` as a millisecond timestamp. -/
def FS.statMtime (fs : FS) (p : String) : Except String Int :=
  match FS.lookup fs p with
  | none => Except.error ("ENOENT: " ++ p)
  | some e => Except.ok e.mtime

/-- `fs.mkdir(dirname, {recursive:true})` followed by
`fs.writeFile(path, content, 'utf-8')`; `t` is the write time recorded as
the new entry's mtime.  Overwrites in place, appends new paths. -/
def FS.writeText (fs : FS) (p : String) (c : String) (t : Int) : FS :=
  if fs.any (fun e => e.1 == p) then
    fs.map (fun e => if e.1 == p then (p, ⟨c, t, none⟩) else e)
  else
    fs ++ [(p, ⟨c, t, none⟩)]

/-! ## Path handling

`cleanPath` comes from `sourcePath.replace(/^[a-z]+:\/\/\//, '')` — an
anchored regex: one or more lowercase letters followed by the literal
characters `:///`.  `localPath` is Node's `path.join('.', cleanPath)`,
which concatenates with `/` and then runs POSIX path normalization. -/

def isLowerAlpha (c : Char) : Bool := 'a' ≤ c && c ≤ 'z'

/-- The regex `/^[a-z]+:\/\/\//` applied by `String.replace` with an empty
replacement: if the string starts with one or more lowercase letters
immediately followed by `:///`, drop that prefix; otherwise leave the
string unchanged. -/
def stripSchemePrefix (s : String) : String :=
  let letters := s.data.takeWhile isLowerAlpha
  let rest := s.data.drop letters.length
  if letters ≠ [] ∧ rest.take 4 = [':', '/', '/', '/'] then
    String.mk (rest.drop 4)
  else s

/-- One normalization step of Node's `normalizeString` (POSIX): skip empty
and `.` segments; `..` pops a previous real segment when one exists,
otherwise (for relative paths, `allowAboveRoot`) is kept. -/
def normSegs (allowAboveRoot : Bool) : List String → List String → List String
  | acc, [] => acc.reverse
  | acc, seg :: rest =>
    if seg = "" || seg = "." then
      normSegs allowAboveRoot acc rest
    else if seg = ".." then
      match acc with
      | [] => normSegs allowAboveRoot (if allowAboveRoot then [".."] else []) rest
      | top :: acc' =>
        if top = ".." then normSegs allowAboveRoot (".." :: acc) rest
        else normSegs allowAboveRoot acc' rest
    else
      normSegs allowAboveRoot (seg :: acc) rest

/-- Split on `/` (the separator scan inside `normalizeString`), with the
usual `split` semantics: `"a//b" ↦ ["a", "", "b"]`. -/
def splitSlashAux : List Char → List Char → List String
  | [], cur => [String.mk cur.reverse]
  | c :: rest, cur =>
    if c = '/' then String.mk cur.reverse :: splitSlashAux rest []
    else splitSlashAux rest (c :: cur)

def splitSlash (s : String) : List String := splitSlashAux s.data []

def headIsSlash (s : String) : Bool := s.data.head? = some '/'

def lastIsSlash (s : String) : Bool := s.data.getLast? = some '/'

/-- Node `path.posix.normalize`. -/
def pathNormalize (p : String) : String :=
  if p = "" then "."
  else
    let isAbs := headIsSlash p
    let trailing := lastIsSlash p
    let core := String.intercalate "/" (normSegs (!isAbs) [] (splitSlash p))
    if core = "" then
      if isAbs then "/" else if trailing then "./" else "."
    else
      let core := if trailing then core ++ "/" else core
      if isAbs then "/" ++ core else core

/-- Node `path.posix.join(a, b)`: empty arguments are skipped, the rest are
joined with `/` and the result is normalized. -/
def pathJoin (a b : String) : String :=
  let joined :=
    if a = "" then (if b = "" then "" else b)
    else if b = "" then a
    else a ++ "/" ++ b
  if joined = "" then "." else pathNormalize joined

/-! ## SourceExtractor: the per-entry loop body

`processEntry` is the body of the `for` loop over `sourcemap.sources`
(lines 100–137 of `src/main.js`): one source path with its (possibly
absent / null / empty, i.e. falsy) `sourcesContent` entry, run against the
mirror.  It returns the updated filesystem and the `FileOutcome` pushed
for this entry (`none` when the entry is skipped by `if (!sourceContent)
continue`); a read failure throws, leaving the filesystem untouched. -/

/-- JavaScript truthiness of `sourcesContent[i]`: `undefined` (index out of
range), `null`, and the empty string are falsy. -/
def truthyContent : Option String → Bool
  | none => false
  | some s => s ≠ ""

def processEntry (hash : String → String) (now : Int) (sourcePath : String)
    (sourceContent : Option String) (fs : FS) :
    Except String (FS × Option FileOutcome) :=
  match sourceContent with
  | none => Except.ok (fs, none)
  | some content =>
    if content = "" then Except.ok (fs, none)
    else
      let cleanPath := stripSchemePrefix sourcePath
      let localPath := pathJoin "." cleanPath
      let newHash := hash content
      if fileExists fs localPath then
        match FS.readText fs localPath with
        | Except.error m => Except.error m
        | Except.ok existingContent =>
          let existingHash := hash existingContent
          if newHash ≠ existingHash then
            match FS.statMtime fs localPath with
            | Except.error m => Except.error m
            | Except.ok mt =>
              Except.ok (FS.writeText fs localPath content now,
                some { path := localPath, isChanged := true,
                       previousModified := some mt })
          else
            Except.ok (fs, some { path := localPath, isChanged := false,
                                  previousModified := none })
      else
        Except.ok (FS.writeText fs localPath content now,
          some { path := localPath, isChanged := true,
                 previousModified := none })

/-- `sourcesContent[i]` for index `i`: out-of-range indexing yields
`undefined` (modelled `none`), an explicit `null` entry stays `none`. -/
def contentAt (sourcesContent : List (Option String)) (i : Nat) : Option String :=
  (sourcesContent.get? i).bind id

/-- The `for` loop of `downloadAndExtractSourcemap`, with the `try/catch`
made explicit: on the first thrown error the loop stops, keeping the
filesystem mutations and the `results.files` entries accumulated so far
(the third component is the caught error message, if any). -/
def extractLoop (hash : String → String) (now : Int) :
    List (String × Option String) → FS → List FileOutcome →
    FS × List FileOutcome × Option String
  | [], fs, acc => (fs, acc, none)
  | (sp, sc) :: rest, fs, acc =>
    match processEntry hash now sp sc fs with
    | Except.error m => (fs, acc, some m)
    | Except.ok (fs', none) => extractLoop hash now rest fs' acc
    | Except.ok (fs', some o) => extractLoop hash now rest fs' (acc ++ [o])

/-- The index-aligned `(sources[i], sourcesContent[i])` pairs the loop
iterates over (`i` ranges over `sources.length`). -/
def entriesOf (sources : List String) (sourcesContent : List (Option String)) :
    List (String × Option String) :=
  (List.range sources.length).map
    (fun i => (sources.getD i "", contentAt sourcesContent i))

/-- `downloadAndExtractSourcemap(url)` (lines 72–145): never throws; every
failure (transport error, non-2xx status, JSON parse error, missing
sourcemap fields, I/O error inside the loop) is converted into a returned
outcome with `success := false` and the error message.  Returns the
outcome together with the filesystem after any writes that happened. -/
def downloadAndExtractSourcemap (hash : String → String) (now : Int)
    (url : String) (fetched : FetchResult) (fs : FS) :
    ExtractionOutcome × FS :=
  match fetched with
  | FetchResult.transportError msg =>
    ({ url := url, success := false, files := [], error := some msg }, fs)
  | FetchResult.response status body =>
    if !httpOk status then
      ({ url := url, success := false, files := [],
         error := some ("HTTP " ++ toString status) }, fs)
    else
      match body with
      | Except.error msg =>
        ({ url := url, success := false, files := [], error := some msg }, fs)
      | Except.ok sm =>
        match sm.sources, sm.sourcesContent with
        | some sources, some sourcesContent =>
          let (fs', files, err?) :=
            extractLoop hash now (entriesOf sources sourcesContent) fs []
          match err? with
          | none =>
            ({ url := url, success := true, files := files, error := none }, fs')
          | some m =>
            ({ url := url, success := false, files := files,
               error := some m }, fs')
        | _, _ =>
          ({ url := url, success := false, files := [],
             error := some "Invalid sourcemap format" }, fs)

/-! ## BatchScheduler: `processInBatches` (lines 147–158)

The slice loop is `chunksList`; `Promise.all(batch.map(processor))` is
modelled with an explicit completion order per chunk: jobs settle in an
arbitrary order `order` (a permutation of the chunk's indices), and
`Promise.all` reassembles the settled values in submission order.  The
result of a job at index `i` is `job batch[i]` regardless of when it
settles. -/

def chunksList (items : List α) (bs : Nat) (hbs : 0 < bs) : List (List α) :=
  match items with
  | [] => []
  | x :: xs => ((x :: xs).take bs) :: chunksList ((x :: xs).drop bs) bs hbs
termination_by items.length
decreasing_by
  simp only [List.length_drop, List.length_cons]
  omega

/-- The settlement events of one chunk: `order` lists indices in the order
the corresponding promises settle; each event carries its submission index
and the job's value. -/
def settleEvents (job : α → β) (batch : List α) (order : List Nat) :
    List (Nat × β) :=
  order.filterMap (fun i => (batch.get? i).map (fun x => (i, job x)))

/-- `Promise.all`: values reassembled in submission order, independent of
the settlement order.  A slot with no settlement event stays `none` (this
cannot happen when `order` is a permutation of the indices). -/
def promiseAll (job : α → β) (batch : List α) (order : List Nat) :
    List (Option β) :=
  (List.range batch.length).map
    (fun j => ((settleEvents job batch order).find? (fun e => e.1 == j)).map (·.2))

/-- The sequential chunk loop: chunk `k` is fully settled (its
`Promise.all` awaited) before chunk `k+1` starts. -/
def processChunks (job : α → β) (orders : Nat → List Nat) :
    List (List α) → Nat → List (Option β)
  | [], _ => []
  | c :: cs, k => promiseAll job c (orders k) ++ processChunks job orders cs (k + 1)

def processInBatches (items : List α) (bs : Nat) (hbs : 0 < bs)
    (job : α → β) (orders : Nat → List Nat) : List (Option β) :=
  processChunks job orders (chunksList items bs hbs) 0

/-- Settlement events of the chunk loop, each tagged with its chunk
number, in settlement order within the chunk: chunk `k` is emitted in
full before chunk `k+1` contributes anything (the `await` barrier). -/
def traceChunks (orders : Nat → List Nat) :
    List (List α) → Nat → List (Nat × Nat)
  | [], _ => []
  | _ :: cs, k =>
    (orders k).map (fun i => (k, i)) ++ traceChunks (α := α) orders cs (k + 1)

/-- The run's event trace: jobs of chunk `k` settle (tagged `k`) strictly
before anything of chunk `k+1`. -/
def batchTrace (items : List α) (bs : Nat) (hbs : 0 < bs)
    (orders : Nat → List Nat) : List (Nat × Nat) :=
  traceChunks (α := α) orders (chunksList items bs hbs) 0

/-! ## RelativeTimeFormatter: `formatTimeSince` (lines 29–51)

`UNITS` in iteration order (`Object.entries` preserves insertion order).
The month length `(365/12)*24*60*60*1000` is exactly `2628000000` ms; all
unit lengths are integers, so `Math.round(diffInMs / msValue)` is modelled
exactly on rationals as `⌊(2·d + m) / (2·m)⌋` (JS `Math.round` rounds
halves toward `+∞`). -/

def UNITS : List (String × Int) :=
  [("year", 31536000000), ("month", 2628000000), ("week", 604800000),
   ("day", 86400000), ("hour", 3600000), ("minute", 60000), ("second", 1000)]

/-- JS `Math.round(d / m)` for integers `d` and `m > 0`. -/
def jsRoundDiv (d m : Int) : Int := Int.fdiv (2 * d + m) (2 * m)

/-- `new Intl.RelativeTimeFormat('en', {style:'long'}).format(v, unit)`
for the units used here: `"in 30 seconds"`, `"3 days ago"`, singular for
`±1`.  `negZero` records whether a JS value `0` is the double `-0`
(`Math.round` of a number in `[-0.5, 0)` is `-0`, and ECMA-402 renders
`-0` with the past form). -/
def relTimeFormat (v : Int) (negZero : Bool) (unit : String) : String :=
  let unitWord := if v = 1 || v = -1 then unit else unit ++ "s"
  if v < 0 ∨ (v = 0 ∧ negZero = true) then
    toString (-v) ++ " " ++ unitWord ++ " ago"
  else "in " ++ toString v ++ " " ++ unitWord

def formatTimeSinceGo (d : Int) : List (String × Int) → String
  | [] => ""
  | (unit, msValue) :: rest =>
    if d.natAbs ≥ msValue.toNat || unit = "second" then
      relTimeFormat (jsRoundDiv d msValue) (decide (d < 0)) unit
    else formatTimeSinceGo d rest

/-- `formatTimeSince(time)` with `Date.now()` passed explicitly. -/
def formatTimeSince (now time : Int) : String :=
  formatTimeSinceGo (time - now) UNITS

/-! ## ChangeReportBuilder: aggregation and rendering (lines 160–218) -/

/-- The `stats` accumulator: `changed` is a JS `Map` (association list with
insertion order, `set` on an existing key updates in place), `failed` an
array of `{url, error}`. -/
structure Stats where
  changed : List (String × Option Int)
  failed : List (String × String)
deriving Repr, DecidableEq

/-- JS `Map.prototype.set`. -/
def mapSet (m : List (String × α)) (k : String) (v : α) : List (String × α) :=
  if m.any (fun e => e.1 == k) then
    m.map (fun e => if e.1 == k then (k, v) else e)
  else m ++ [(k, v)]

/-- The aggregation loop over `results` (lines 171–182): failures collect
`{url, error}`; successful outcomes contribute their `isChanged` files to
the `changed` map keyed by path. -/
def buildStats (results : List ExtractionOutcome) : Stats :=
  results.foldl
    (fun stats r =>
      if !r.success then
        { stats with
          failed := stats.failed ++ [(r.url, r.error.getD "")] }
      else
        { stats with
          changed :=
            (r.files.filter (·.isChanged)).foldl
              (fun m f => mapSet m f.path f.previousModified) stats.changed })
    { changed := [], failed := [] }

/-- Stable sort by a JS comparator (`Array.prototype.sort` is stable):
each element is inserted after everything the comparator does not order
strictly after it. -/
def insertSorted (le : α → α → Bool) (x : α) : List α → List α
  | [] => [x]
  | y :: ys => if le y x then y :: insertSorted le x ys else x :: y :: ys

def sortBy (le : α → α → Bool) (l : List α) : List α :=
  l.foldl (fun acc x => insertSorted le x acc) []

/-- The `lines` array built in `main` (lines 184–204).  `cmp` abstracts
`String.prototype.localeCompare`; `now` is `Date.now()` inside
`formatTimeSince`. -/
def buildLines (cmp : String → String → Ordering) (now : Int)
    (stats : Stats) : List String :=
  let n := stats.changed.length
  let header := ["chore: Changed " ++ toString n ++ " file(s)"]
  let changedBlock :=
    if 0 < n then
      let sorted := sortBy (fun a b => cmp a.1 b.1 ≠ Ordering.gt) stats.changed
      ["\nChanged files (" ++ toString n ++ "):", "\n<pre>"] ++
      sorted.map (fun p =>
        match p.2 with
        | some t => p.1 ++ " (" ++ formatTimeSince now t ++ ")"
        | none => p.1 ++ " (new)") ++
      ["</pre>"]
    else []
  let failedBlock :=
    if 0 < stats.failed.length then
      ["\nFailed downloads (" ++ toString stats.failed.length ++ "):",
       "\n<pre>"] ++
      stats.failed.map (fun p => p.1 ++ " (" ++ p.2 ++ ")") ++
      ["</pre>"]
    else []
  header ++ changedBlock ++ failedBlock

def joinNL (lines : List String) : String := String.intercalate "\n" lines

/-- JS `String.prototype.replaceAll` with a non-empty string pattern:
scan left to right; at a match, emit the replacement and skip the matched
occurrence (`skip` counts pattern characters still to consume). -/
def replaceAllAux (pat repl : List Char) : List Char → Nat → List Char
  | [], _ => []
  | c :: rest, skip =>
    match skip with
    | n + 1 => replaceAllAux pat repl rest n
    | 0 =>
      if pat ≠ [] ∧ pat.isPrefixOf (c :: rest) then
        repl ++ replaceAllAux pat repl rest (pat.length - 1)
      else c :: replaceAllAux pat repl rest 0

def replaceAll (s pat repl : String) : String :=
  String.mk (replaceAllAux pat.data repl.data s.data 0)

/-- `.replaceAll('\n<pre>', '').replaceAll('\n</pre>', '')`. -/
def stripMarkers (s : String) : String :=
  replaceAll (replaceAll s "\n<pre>" "") "\n</pre>" ""

/-- `lines.join('\n').replaceAll('\n<pre>', '').replaceAll('\n</pre>', '')`. -/
def commitMessageOf (lines : List String) : String :=
  stripMarkers (joinNL lines)

/-- `lines.slice(1).join('\n')`. -/
def telegramMessageOf (lines : List String) : String :=
  joinNL (lines.drop 1)

/-- How `main` ends (lines 209–218): exit 0 without writing anything when
nothing changed and nothing failed, otherwise write both report files. -/
inductive RunResult where
  | exitZero
  | wroteReports (commitMessage telegramMessage : String)
deriving Repr, DecidableEq

def mainFinish (cmp : String → String → Ordering) (now : Int)
    (results : List ExtractionOutcome) : RunResult :=
  let stats := buildStats results
  let lines := buildLines cmp now stats
  if stats.changed.length = 0 && stats.failed.length = 0 then
    RunResult.exitZero
  else
    RunResult.wroteReports (commitMessageOf lines) (telegramMessageOf lines)

/-! ## Driving the pipeline for concrete scenarios

`mkSourcemapUrl` is the link expansion in `main` (line 164).  `runJobs`
runs the per-URL jobs in input order threading the filesystem (the real
run interleaves jobs within a batch; the spec's no-overlap assumption
makes the sequentialization faithful for disjoint target paths, and the
scenario claims use a single link). -/

def HOST : String := "spaces.im"

def mkSourcemapUrl (link : String) : String :=
  "https://" ++ HOST ++ link ++ ".map"

def runJobs (hash : String → String) (now : Int)
    (fetchEnv : String → FetchResult) :
    List String → FS → List ExtractionOutcome × FS
  | [], fs => ([], fs)
  | url :: rest, fs =>
    let (r, fs') := downloadAndExtractSourcemap hash now url (fetchEnv url) fs
    let (rs, fs'') := runJobs hash now fetchEnv rest fs'
    (r :: rs, fs'')

/-- The whole run on a list of links: expand links to sourcemap URLs,
extract each, aggregate, and finish as `main` does. -/
def runMain (hash : String → String) (now : Int)
    (fetchEnv : String → FetchResult) (cmp : String → String → Ordering)
    (links : List String) (fs : FS) : RunResult × FS :=
  let urls := links.map mkSourcemapUrl
  let (results, fs') := runJobs hash now fetchEnv urls fs
  (mainFinish cmp now results, fs')

/-! ## Specification-side selector and concrete scenario inputs -/

/-- Specification reading of the unit selection: the largest unit whose
millisecond threshold is met by the magnitude, falling back to seconds.
`UNITS` is ordered by strictly decreasing threshold, so this is its first
entry whose threshold is met. -/
def selectUnit (a : Nat) : String × Int :=
  ((UNITS.filter (fun u => a ≥ u.2.toNat)).head?).getD ("second", 1000)

/-- Concrete stand-in for the MD5 hash in closed scenario computations
(the pipeline only compares digests for equality, and the identity
function is injective, so it is a sound stand-in). -/
def idHash (s : String) : String := s

/-- The remote sourcemap of the spec's main scenario. -/
def scenarioDoc : SourcemapDoc :=
  { sources := some ["webpack:///src/app.js"],
    sourcesContent := some [some "const x=1;"] }

def scenarioFetch : String → FetchResult :=
  fun _ => FetchResult.response 200 (Except.ok scenarioDoc)

/-- A failed outcome, as produced for a URL whose fetch failed. -/
def demoFailedOutcome : ExtractionOutcome :=
  { url := "u", success := false, files := [], error := some "e" }

/-- A mirror whose file `b` exists but cannot be read (injected I/O
fault), for exercising the mid-extraction exception path. -/
def faultyFS : FS := [("b", { content := "old", mtime := 5, readError := some "EIO" })]

/-- A sourcemap whose first entry (`a`) is new and whose second entry
(`b`) hits the read fault. -/
def faultyDoc : SourcemapDoc :=
  { sources := some ["a", "b"], sourcesContent := some [some "A", some "B"] }

/-- The outcome the job produces on `faultyDoc` over `faultyFS`: the write
of `a` already happened when reading `b` threw. -/
def faultyOutcome : ExtractionOutcome :=
  { url := "u", success := false,
    files := [{ path := "a", isChanged := true, previousModified := none }],
    error := some "EIO" }

/-- The mirror after that failed job: `b` untouched, `a` written. -/
def faultyResultFS : FS :=
  [("b", { content := "old", mtime := 5, readError := some "EIO" }),
   ("a", { content := "A", mtime := 0, readError := none })]

/-- Concrete settlement orders for a 5-item, batch-size-2 run: the first
pair settles in reverse submission order. -/
def demoOrders : Nat → List Nat :=
  fun k => if k = 0 then [1, 0] else if k = 1 then [0, 1] else [0]

/-! ## Theorems -/

theorem takeWhile_all_append (p : Char → Bool) (l1 : List Char) (c : Char)
    (l2 : List Char) (h1 : ∀ x ∈ l1, p x = true) (hc : p c = false) :
    (l1 ++ c :: l2).takeWhile p = l1 := by
  induction l1 with
  | nil => simp [List.takeWhile_cons, hc]
  | cons a l ih =>
    have ha : p a = true := h1 a (List.mem_cons_self a l)
    simp only [List.cons_append, List.takeWhile_cons, ha, if_true]
    rw [ih (fun x hx => h1 x (List.mem_cons_of_mem a hx))]

theorem stripSchemePrefix_triple_slash (scheme rest : String)
    (hne : scheme ≠ "") (hlow : ∀ c ∈ scheme.data, isLowerAlpha c = true) :
    stripSchemePrefix (scheme ++ ":///" ++ rest) = rest := by
  have hdata : (scheme ++ ":///" ++ rest).data
      = scheme.data ++ ':' :: '/' :: '/' :: '/' :: rest.data := by
    simp [String.data_append]
  have hcolon : isLowerAlpha ':' = false := by decide
  have htw : (scheme ++ ":///" ++ rest).data.takeWhile isLowerAlpha
      = scheme.data := by
    rw [hdata]
    exact takeWhile_all_append isLowerAlpha scheme.data ':' _ hlow hcolon
  have hdne : scheme.data ≠ [] := by
    intro h
    apply hne
    cases scheme with
    | mk d => cases h; rfl
  have hdrop : (scheme ++ ":///" ++ rest).data.drop scheme.data.length
      = ':' :: '/' :: '/' :: '/' :: rest.data := by
    rw [hdata]
    exact List.drop_left scheme.data _
  unfold stripSchemePrefix
  simp only [htw, hdrop]
  rw [if_pos ⟨hdne, rfl⟩]
  rfl

theorem processEntry_path (hash : String → String) (now : Int)
    (sp : String) (sc : Option String) (fs fs' : FS) (o : FileOutcome)
    (h : processEntry hash now sp sc fs = Except.ok (fs', some o)) :
    o.path = pathJoin "." (stripSchemePrefix sp) := by
  unfold processEntry at h
  cases sc with
  | none => simp at h
  | some content =>
    simp only at h
    split at h
    · simp at h
    · split at h
      · split at h
        · simp at h
        · split at h
          · split at h
            · simp at h
            · simp at h
              obtain ⟨-, h2⟩ := h
              rw [← h2]
          · simp at h
            obtain ⟨-, h2⟩ := h
            rw [← h2]
      · simp at h
        obtain ⟨-, h2⟩ := h
        rw [← h2]

/-- C1: the claim's pattern `scheme://` is wrong: the code strips
`scheme:///` (three slashes).  A string of the form `<scheme>://<rest>`
where `<rest>` does not begin with `/` is left entirely unchanged:
`"http://a"` stays `"http://a"` instead of becoming `"a"`; and on the
spec's own scenario entry `"webpack:///src/app.js"` the result is
`"src/app.js"`, not `"/src/app.js"` as the two-slash pattern would give. -/
theorem c1_counterexample :
    stripSchemePrefix ("http" ++ "://" ++ "a") = "http://a" ∧
    "http://a" ≠ "a" ∧
    stripSchemePrefix ("webpack" ++ "://" ++ "/src/app.js") = "src/app.js" ∧
    "src/app.js" ≠ "/src/app.js" := by
  refine ⟨by decide, by decide, by decide, by decide⟩

/-- C1 (amended): `cleanPath` is obtained by stripping a leading prefix of
lowercase letters followed by `:///` (three slashes): for every
`<scheme>:///<rest>` with `<scheme>` nonempty lowercase letters,
`cleanPath = <rest>`; and every emitted `FileOutcome`'s path is
`path.join('.', cleanPath)`. -/
theorem c1_scheme_strip (scheme rest : String)
    (hne : scheme ≠ "") (hlow : ∀ c ∈ scheme.data, isLowerAlpha c = true) :
    stripSchemePrefix (scheme ++ ":///" ++ rest) = rest ∧
    (∀ (hash : String → String) (now : Int) (sp : String)
       (sc : Option String) (fs fs' : FS) (o : FileOutcome),
       processEntry hash now sp sc fs = Except.ok (fs', some o) →
       o.path = pathJoin "." (stripSchemePrefix sp)) := by
  exact ⟨stripSchemePrefix_triple_slash scheme rest hne hlow,
    fun hash now sp sc fs fs' o h => processEntry_path hash now sp sc fs fs' o h⟩

theorem c1_scheme_strip_witness :
    stripSchemePrefix ("webpack" ++ ":///" ++ "src/app.js") = "src/app.js" := by
  have h := c1_scheme_strip "webpack" "src/app.js" (by decide) (by decide)
  exact h.1

/-- Characterization of the loop body, mirror file absent: a fresh write,
outcome new-and-changed. -/
theorem processEntry_absent (hash : String → String) (now : Int)
    (sp content : String) (fs : FS) (h0 : content ≠ "")
    (hl : FS.lookup fs (pathJoin "." (stripSchemePrefix sp)) = none) :
    processEntry hash now sp (some content) fs =
      Except.ok (FS.writeText fs (pathJoin "." (stripSchemePrefix sp)) content now,
        some { path := pathJoin "." (stripSchemePrefix sp), isChanged := true,
               previousModified := none }) := by
  have hex : fileExists fs (pathJoin "." (stripSchemePrefix sp)) = false := by
    simp [fileExists, hl]
  unfold processEntry
  simp [if_neg h0, hex]

/-- Characterization of the loop body, mirror file present but unreadable:
the injected I/O error is thrown. -/
theorem processEntry_fault (hash : String → String) (now : Int)
    (sp content : String) (fs : FS) (e : FileEntry) (m : String)
    (h0 : content ≠ "")
    (hl : FS.lookup fs (pathJoin "." (stripSchemePrefix sp)) = some e)
    (hr : e.readError = some m) :
    processEntry hash now sp (some content) fs = Except.error m := by
  have hex : fileExists fs (pathJoin "." (stripSchemePrefix sp)) = true := by
    simp [fileExists, hl]
  have hrd : FS.readText fs (pathJoin "." (stripSchemePrefix sp))
      = Except.error m := by
    simp [FS.readText, hl, hr]
  unfold processEntry
  simp [if_neg h0, hex, hrd]

/-- Characterization of the loop body, mirror file present and readable:
digest comparison decides between overwrite (capturing the old mtime) and
no-op. -/
theorem processEntry_present (hash : String → String) (now : Int)
    (sp content : String) (fs : FS) (e : FileEntry)
    (h0 : content ≠ "")
    (hl : FS.lookup fs (pathJoin "." (stripSchemePrefix sp)) = some e)
    (hr : e.readError = none) :
    processEntry hash now sp (some content) fs =
      (if hash content ≠ hash e.content then
        Except.ok (FS.writeText fs (pathJoin "." (stripSchemePrefix sp)) content now,
          some { path := pathJoin "." (stripSchemePrefix sp), isChanged := true,
                 previousModified := some e.mtime })
      else
        Except.ok (fs,
          some { path := pathJoin "." (stripSchemePrefix sp), isChanged := false,
                 previousModified := none })) := by
  have hex : fileExists fs (pathJoin "." (stripSchemePrefix sp)) = true := by
    simp [fileExists, hl]
  have hrd : FS.readText fs (pathJoin "." (stripSchemePrefix sp))
      = Except.ok e.content := by
    simp [FS.readText, hl, hr]
  have hst : FS.statMtime fs (pathJoin "." (stripSchemePrefix sp))
      = Except.ok e.mtime := by
    simp [FS.statMtime, hl]
  unfold processEntry
  by_cases hne : hash content ≠ hash e.content
  · simp [if_neg h0, hex, hrd, hst, hne]
  · simp [if_neg h0, hex, hrd, hst, hne]

/-- C6: an entry whose mirror file exists, is readable, and hashes equal
to the incoming content causes no filesystem mutation at all — the state
is returned unchanged — and emits
`FileOutcome{path: localPath, isChanged: false}` with no previous
modification time. -/
theorem c6_unchanged_no_mutation (hash : String → String) (now : Int)
    (sp content : String) (fs : FS) (e : FileEntry)
    (hc : content ≠ "")
    (hlook : FS.lookup fs (pathJoin "." (stripSchemePrefix sp)) = some e)
    (hread : e.readError = none)
    (hhash : hash e.content = hash content) :
    processEntry hash now sp (some content) fs =
      Except.ok (fs, some { path := pathJoin "." (stripSchemePrefix sp),
                            isChanged := false, previousModified := none }) := by
  rw [processEntry_present hash now sp content fs e hc hlook hread]
  rw [if_neg]
  intro hne
  exact hne hhash.symm

theorem c6_unchanged_no_mutation_witness :
    processEntry idHash 7 "webpack:///a.js" (some "X")
        [("a.js", { content := "X", mtime := 3, readError := none })] =
      Except.ok ([("a.js", { content := "X", mtime := 3, readError := none })],
        some { path := "a.js", isChanged := false, previousModified := none }) := by
  have hp : pathJoin "." (stripSchemePrefix "webpack:///a.js") = "a.js" := by decide
  have h := c6_unchanged_no_mutation idHash 7 "webpack:///a.js" "X"
    [("a.js", { content := "X", mtime := 3, readError := none })]
    { content := "X", mtime := 3, readError := none }
    (by decide) (by rw [hp]; decide) rfl rfl
  rw [h, hp]

theorem processEntry_prev (hash : String → String) (now : Int)
    (sp content : String) (fs fs' : FS) (o : FileOutcome) (t : Int)
    (h : processEntry hash now sp (some content) fs = Except.ok (fs', some o))
    (hp : o.previousModified = some t) :
    o.isChanged = true ∧
    ∃ e, FS.lookup fs o.path = some e ∧ e.mtime = t ∧
      hash e.content ≠ hash content := by
  by_cases h0 : content = ""
  · subst h0; simp [processEntry] at h
  · cases hl : FS.lookup fs (pathJoin "." (stripSchemePrefix sp)) with
    | none =>
      rw [processEntry_absent hash now sp content fs h0 hl] at h
      simp only [Except.ok.injEq, Prod.mk.injEq, Option.some.injEq] at h
      obtain ⟨-, h2⟩ := h
      subst h2
      simp at hp
    | some e =>
      cases hr : e.readError with
      | some m =>
        rw [processEntry_fault hash now sp content fs e m h0 hl hr] at h
        simp at h
      | none =>
        rw [processEntry_present hash now sp content fs e h0 hl hr] at h
        by_cases hne : hash content ≠ hash e.content
        · rw [if_pos hne] at h
          simp only [Except.ok.injEq, Prod.mk.injEq, Option.some.injEq] at h
          obtain ⟨-, h2⟩ := h
          subst h2
          simp only [Option.some.injEq] at hp
          subst hp
          exact ⟨rfl, e, hl, rfl, fun hx => hne hx.symm⟩
        · rw [if_neg hne] at h
          simp only [Except.ok.injEq, Prod.mk.injEq, Option.some.injEq] at h
          obtain ⟨-, h2⟩ := h
          subst h2
          simp at hp

theorem processEntry_prev_changed (hash : String → String) (now : Int)
    (sp : String) (sc : Option String) (fs fs' : FS) (o : FileOutcome)
    (h : processEntry hash now sp sc fs = Except.ok (fs', some o))
    (hp : o.previousModified ≠ none) : o.isChanged = true := by
  cases sc with
  | none => simp [processEntry] at h
  | some content =>
    cases hpm : o.previousModified with
    | none => exact absurd hpm hp
    | some t => exact (processEntry_prev hash now sp content fs fs' o t h hpm).1

theorem extractLoop_files_inv (hash : String → String) (now : Int)
    (P : FileOutcome → Prop)
    (hP : ∀ sp sc fs fs' o, processEntry hash now sp sc fs = Except.ok (fs', some o) → P o) :
    ∀ (entries : List (String × Option String)) (fs : FS) (acc : List FileOutcome),
    (∀ f ∈ acc, P f) →
    ∀ f ∈ (extractLoop hash now entries fs acc).2.1, P f := by
  intro entries
  induction entries with
  | nil => intro fs acc hacc f hf; simpa [extractLoop] using hacc f (by simpa [extractLoop] using hf)
  | cons e rest ih =>
    intro fs acc hacc f hf
    obtain ⟨sp, sc⟩ := e
    simp only [extractLoop] at hf
    cases hpe : processEntry hash now sp sc fs with
    | error m => rw [hpe] at hf; simp at hf; exact hacc f hf
    | ok r =>
      obtain ⟨fs', o?⟩ := r
      cases o? with
      | none => rw [hpe] at hf; exact ih fs' acc hacc f hf
      | some o =>
        rw [hpe] at hf
        refine ih fs' (acc ++ [o]) ?_ f hf
        intro g hg
        rcases List.mem_append.mp hg with hg | hg
        · exact hacc g hg
        · rw [List.mem_singleton.mp hg]
          exact hP sp sc fs fs' o hpe

theorem extractLoop_prev_files (hash : String → String) (now : Int)
    (entries : List (String × Option String)) (fs : FS) :
    ∀ f ∈ (extractLoop hash now entries fs []).2.1,
      f.previousModified ≠ none → f.isChanged = true := by
  exact extractLoop_files_inv hash now
    (fun f => f.previousModified ≠ none → f.isChanged = true)
    (fun sp sc fs0 fs' o hpe hprev =>
      processEntry_prev_changed hash now sp sc fs0 fs' o hpe hprev)
    entries fs [] (by simp)

/-- C9: every outcome returned by the per-URL job satisfies the invariant
`success = true ↔ error = none`, carries the url it was created for, and
every `FileOutcome` in `files` has `previousModified` set only when
`isChanged` is true; moreover a set `previousModified` always comes from a
pre-existing mirror file whose digest differed from the incoming content
(its recorded mtime). -/
theorem c9_outcome_invariant (hash : String → String) (now : Int)
    (url : String) (fetched : FetchResult) (fs : FS) :
    ((downloadAndExtractSourcemap hash now url fetched fs).1.success = true ↔
      (downloadAndExtractSourcemap hash now url fetched fs).1.error = none) ∧
    (downloadAndExtractSourcemap hash now url fetched fs).1.url = url ∧
    (∀ f ∈ (downloadAndExtractSourcemap hash now url fetched fs).1.files,
      f.previousModified ≠ none → f.isChanged = true) ∧
    (∀ (sp content : String) (fs0 fs' : FS) (o : FileOutcome) (t : Int),
      processEntry hash now sp (some content) fs0 = Except.ok (fs', some o) →
      o.previousModified = some t →
      o.isChanged = true ∧
      ∃ e, FS.lookup fs0 o.path = some e ∧ e.mtime = t ∧
        hash e.content ≠ hash content) := by
  refine ⟨?_, ?_, ?_, fun sp content fs0 fs' o t h hp =>
    processEntry_prev hash now sp content fs0 fs' o t h hp⟩ <;>
  · cases fetched with
    | transportError msg => simp [downloadAndExtractSourcemap]
    | response status body =>
      by_cases hst : httpOk status
      · cases body with
        | error msg => simp [downloadAndExtractSourcemap, hst]
        | ok sm =>
          cases hs : sm.sources with
          | none => simp [downloadAndExtractSourcemap, hst, hs]
          | some sources =>
            cases hsc : sm.sourcesContent with
            | none => simp [downloadAndExtractSourcemap, hst, hs, hsc]
            | some sourcesContent =>
              cases hel : extractLoop hash now (entriesOf sources sourcesContent) fs [] with
              | mk fs2 rest =>
                cases rest with
                | mk files err? =>
                  have hfiles := extractLoop_prev_files hash now
                    (entriesOf sources sourcesContent) fs
                  rw [hel] at hfiles
                  cases err? with
                  | none => simpa [downloadAndExtractSourcemap, hst, hs, hsc, hel] using hfiles
                  | some m => simpa [downloadAndExtractSourcemap, hst, hs, hsc, hel] using hfiles
      · simp [downloadAndExtractSourcemap, hst]

theorem runJobs_length (hash : String → String) (now : Int)
    (fetchEnv : String → FetchResult) :
    ∀ (urls : List String) (fs : FS),
      (runJobs hash now fetchEnv urls fs).1.length = urls.length := by
  intro urls
  induction urls with
  | nil => intro fs; simp [runJobs]
  | cons u rest ih =>
    intro fs
    simp only [runJobs]
    simpa using ih (downloadAndExtractSourcemap hash now u (fetchEnv u) fs).2

/-- C4: the per-URL job is total and converts every failure into a
returned outcome: non-2xx responses yield `error = "HTTP {code}"` (404 in
particular yields `"HTTP 404"`), a transport exception or a JSON parse
exception yields its message, a body without `sources` or
`sourcesContent` yields `"Invalid sourcemap format"`, an I/O exception
inside the extraction loop yields its message (keeping the files already
processed); and a batch of jobs always yields one outcome per URL —
failures never abort the run. -/
theorem c4_error_handling (hash : String → String) (now : Int)
    (url : String) (fs : FS) :
    (∀ (status : Nat) (body : Except String SourcemapDoc),
      ¬(200 ≤ status ∧ status ≤ 299) →
      downloadAndExtractSourcemap hash now url (FetchResult.response status body) fs =
        ({ url := url, success := false, files := [],
           error := some ("HTTP " ++ toString status) }, fs)) ∧
    (∀ body, downloadAndExtractSourcemap hash now url (FetchResult.response 404 body) fs =
        ({ url := url, success := false, files := [],
           error := some "HTTP 404" }, fs)) ∧
    (∀ msg, downloadAndExtractSourcemap hash now url (FetchResult.transportError msg) fs =
        ({ url := url, success := false, files := [], error := some msg }, fs)) ∧
    (∀ (status : Nat) (sm : SourcemapDoc), httpOk status = true →
      sm.sources = none ∨ sm.sourcesContent = none →
      downloadAndExtractSourcemap hash now url (FetchResult.response status (Except.ok sm)) fs =
        ({ url := url, success := false, files := [],
           error := some "Invalid sourcemap format" }, fs)) ∧
    (∀ (status : Nat) (msg : String), httpOk status = true →
      downloadAndExtractSourcemap hash now url (FetchResult.response status (Except.error msg)) fs =
        ({ url := url, success := false, files := [], error := some msg }, fs)) ∧
    (∀ (status : Nat) (sm : SourcemapDoc) (sources : List String)
       (sourcesContent : List (Option String)) (m : String) (fs2 : FS)
       (files : List FileOutcome),
      httpOk status = true → sm.sources = some sources →
      sm.sourcesContent = some sourcesContent →
      extractLoop hash now (entriesOf sources sourcesContent) fs [] = (fs2, files, some m) →
      downloadAndExtractSourcemap hash now url (FetchResult.response status (Except.ok sm)) fs =
        ({ url := url, success := false, files := files, error := some m }, fs2)) ∧
    (∀ (fetchEnv : String → FetchResult) (urls : List String) (fs0 : FS),
      (runJobs hash now fetchEnv urls fs0).1.length = urls.length) := by
  refine ⟨?_, ?_, ?_, ?_, ?_, ?_, ?_⟩
  · intro status body hbad
    have hst : httpOk status = false := by
      simp only [httpOk]
      simp only [Bool.and_eq_false_iff, decide_eq_false_iff_not]
      omega
    simp [downloadAndExtractSourcemap, hst]
  · intro body
    have hst : httpOk 404 = false := by decide
    have h404 : "HTTP " ++ toString (404 : Nat) = "HTTP 404" := by decide
    simp [downloadAndExtractSourcemap, hst, h404]
  · intro msg
    simp [downloadAndExtractSourcemap]
  · intro status sm hst hmiss
    rcases hmiss with hmiss | hmiss
    · cases hsc : sm.sourcesContent with
      | none => simp [downloadAndExtractSourcemap, hst, hmiss, hsc]
      | some v => simp [downloadAndExtractSourcemap, hst, hmiss, hsc]
    · cases hs : sm.sources with
      | none => simp [downloadAndExtractSourcemap, hst, hmiss, hs]
      | some v => simp [downloadAndExtractSourcemap, hst, hmiss, hs]
  · intro status msg hst
    simp [downloadAndExtractSourcemap, hst]
  · intro status sm sources sourcesContent m fs2 files hst hs hsc hel
    simp [downloadAndExtractSourcemap, hst, hs, hsc, hel]
  · intro fetchEnv urls fs0
    exact runJobs_length hash now fetchEnv urls fs0

theorem c4_error_handling_witness :
    downloadAndExtractSourcemap idHash 0 "https://spaces.im/foo.map"
        (FetchResult.response 404 (Except.ok { sources := none, sourcesContent := none })) [] =
      ({ url := "https://spaces.im/foo.map", success := false, files := [],
         error := some "HTTP 404" }, []) := by
  exact (c4_error_handling idHash 0 "https://spaces.im/foo.map" []).2.1
    (Except.ok { sources := none, sourcesContent := none })

theorem buildStats_changed_aux :
    ∀ (l : List ExtractionOutcome) (s s' : Stats), s.changed = s'.changed →
    (l.foldl
      (fun stats r =>
        if !r.success then
          { stats with failed := stats.failed ++ [(r.url, r.error.getD "")] }
        else
          { stats with
            changed :=
              (r.files.filter (·.isChanged)).foldl
                (fun m f => mapSet m f.path f.previousModified) stats.changed }) s).changed =
    ((l.filter (fun r => r.success)).foldl
      (fun stats r =>
        if !r.success then
          { stats with failed := stats.failed ++ [(r.url, r.error.getD "")] }
        else
          { stats with
            changed :=
              (r.files.filter (·.isChanged)).foldl
                (fun m f => mapSet m f.path f.previousModified) stats.changed }) s').changed := by
  intro l
  induction l with
  | nil => intro s s' h; simpa using h
  | cons r rest ih =>
    intro s s' h
    cases hr : r.success with
    | true =>
      have hfil : (r :: rest).filter (fun r => r.success)
          = r :: rest.filter (fun r => r.success) := by
        simp [List.filter_cons, hr]
      rw [hfil, List.foldl_cons, List.foldl_cons]
      exact ih _ _ (by simp [hr, h])
    | false =>
      have hfil : (r :: rest).filter (fun r => r.success)
          = rest.filter (fun r => r.success) := by
        simp [List.filter_cons, hr]
      rw [hfil, List.foldl_cons]
      exact ih _ _ (by simp [hr, h])

/-- C10: the aggregator reads `files` only from outcomes with
`success = true` — files attached to failed outcomes never contribute to
the ChangeSet — even though, extraction not being atomic, writes
performed before a mid-extraction exception persist: on a mirror whose
file `b` is unreadable, the job writes the new file `a`, then fails on
`b` and returns `success := false` with `a` in `files` and on disk, yet
the aggregated ChangeSet stays empty. -/
theorem c10_failed_files_ignored :
    (∀ results : List ExtractionOutcome,
      (buildStats results).changed =
        (buildStats (results.filter (fun r => r.success))).changed) ∧
    downloadAndExtractSourcemap idHash 0 "u"
        (FetchResult.response 200 (Except.ok faultyDoc)) faultyFS =
      (faultyOutcome, faultyResultFS) ∧
    buildStats [faultyOutcome] = { changed := [], failed := [("u", "EIO")] } := by
  refine ⟨?_, by decide, by decide⟩
  intro results
  exact buildStats_changed_aux results _ _ rfl

/-- C7: the run writes no report file and exits 0 exactly when the
distinct changed-path count is 0 and the failure list is empty; otherwise
it writes both `commit-message.txt` and `telegram-message.txt`. -/
theorem c7_no_op_run (cmp : String → String → Ordering) (now : Int)
    (results : List ExtractionOutcome) :
    ((buildStats results).changed.length = 0 ∧ (buildStats results).failed = [] →
      mainFinish cmp now results = RunResult.exitZero) ∧
    ((buildStats results).changed.length ≠ 0 ∨ (buildStats results).failed ≠ [] →
      mainFinish cmp now results =
        RunResult.wroteReports
          (commitMessageOf (buildLines cmp now (buildStats results)))
          (telegramMessageOf (buildLines cmp now (buildStats results)))) ∧
    (mainFinish cmp now results = RunResult.exitZero ↔
      (buildStats results).changed.length = 0 ∧ (buildStats results).failed = []) := by
  by_cases h1 : (buildStats results).changed.length = 0 <;>
    by_cases h2 : (buildStats results).failed = []
  · have h2' : (buildStats results).failed.length = 0 := by simp [h2]
    refine ⟨fun _ => ?_, fun hcon => ?_, ?_⟩
    · simp [mainFinish, h1, h2']
    · exact absurd hcon (by simp [h1, h2])
    · simp [mainFinish, h1, h2', h2]
  · have h2' : (buildStats results).failed.length ≠ 0 := by
      simpa [List.length_eq_zero] using h2
    refine ⟨fun hcon => absurd hcon (by simp [h2]), fun _ => ?_, ?_⟩
    · simp [mainFinish, h2']
    · simp [mainFinish, h2', h2]
  · refine ⟨fun hcon => absurd hcon (by simp [h1]), fun _ => ?_, ?_⟩
    · simp [mainFinish, h1]
    · simp [mainFinish, h1]
  · refine ⟨fun hcon => absurd hcon (by simp [h1]), fun _ => ?_, ?_⟩
    · simp [mainFinish, h1]
    · simp [mainFinish, h1]

theorem c7_no_op_run_witness :
    mainFinish compare 0 [] = RunResult.exitZero ∧
    mainFinish compare 0 [demoFailedOutcome] =
      RunResult.wroteReports
        (commitMessageOf (buildLines compare 0 (buildStats [demoFailedOutcome])))
        (telegramMessageOf (buildLines compare 0 (buildStats [demoFailedOutcome]))) := by
  constructor
  · exact (c7_no_op_run compare 0 []).1 (by constructor <;> decide)
  · exact (c7_no_op_run compare 0 [demoFailedOutcome]).2.1 (Or.inr (by decide))

/-- C2 (counterexample): the telegram message keeps the `<pre>` block
markers — it is not the marker-stripped rendering the claim describes.
On a run with one failure the written telegram text contains
`"\n<pre>"` while the claimed marker-stripped text does not. -/
theorem c2_counterexample :
    mainFinish compare 0 [demoFailedOutcome] =
      RunResult.wroteReports
        "chore: Changed 0 file(s)\n\nFailed downloads (1):\n\nu (e)"
        "\nFailed downloads (1):\n\n<pre>\nu (e)\n</pre>" ∧
    "\nFailed downloads (1):\n\n<pre>\nu (e)\n</pre>" ≠
      stripMarkers (joinNL ((buildLines compare 0 (buildStats [demoFailedOutcome])).drop 1)) := by
  constructor
  · decide
  · intro h
    have : stripMarkers (joinNL ((buildLines compare 0 (buildStats [demoFailedOutcome])).drop 1))
        = "\nFailed downloads (1):\n\nu (e)" := by decide
    rw [this] at h
    exact absurd h (by decide)

/-- C2 (amended): the content written to `telegram-message.txt` is the
report line sequence with the header line omitted and the block markers
retained; `commit-message.txt` is the full line sequence joined with the
block markers stripped; both derive from the same `lines` sequence, whose
head is the header line. -/
theorem c2_report_renderings (cmp : String → String → Ordering) (now : Int)
    (results : List ExtractionOutcome) (c t : String)
    (h : mainFinish cmp now results = RunResult.wroteReports c t) :
    t = joinNL ((buildLines cmp now (buildStats results)).drop 1) ∧
    c = stripMarkers (joinNL (buildLines cmp now (buildStats results))) ∧
    (buildLines cmp now (buildStats results)).head? =
      some ("chore: Changed " ++ toString (buildStats results).changed.length
        ++ " file(s)") := by
  unfold mainFinish at h
  by_cases h1 : (buildStats results).changed.length = 0 <;>
    by_cases h2 : (buildStats results).failed.length = 0
  · simp [h1, h2] at h
  · simp [h1, h2] at h
    exact ⟨h.2.symm, h.1.symm, by simp [buildLines]⟩
  · simp [h1, h2] at h
    exact ⟨h.2.symm, h.1.symm, by simp [buildLines]⟩
  · simp [h1, h2] at h
    exact ⟨h.2.symm, h.1.symm, by simp [buildLines]⟩

theorem c2_report_renderings_witness :
    "\nFailed downloads (1):\n\n<pre>\nu (e)\n</pre>" =
      joinNL ((buildLines compare 0 (buildStats [demoFailedOutcome])).drop 1) ∧
    "chore: Changed 0 file(s)\n\nFailed downloads (1):\n\nu (e)" =
      stripMarkers (joinNL (buildLines compare 0 (buildStats [demoFailedOutcome]))) ∧
    (buildLines compare 0 (buildStats [demoFailedOutcome])).head? =
      some ("chore: Changed " ++ toString (buildStats [demoFailedOutcome]).changed.length
        ++ " file(s)") := by
  exact c2_report_renderings compare 0 [demoFailedOutcome] _ _ (by decide)

/-- C3 (counterexample): in the spec's scenario the file is written at
local path `src/app.js` — `path.join('.', …)` normalizes away the leading
`./` — and the changed-file line is `"src/app.js (new)"`, not
`"./src/app.js"` / `"./src/app.js (new)"` as the claim states. -/
theorem c3_counterexample :
    (runMain idHash 0 scenarioFetch compare ["/foo"] []).2.map Prod.fst =
      ["src/app.js"] ∧
    "src/app.js" ≠ "./src/app.js" ∧
    (buildLines compare 0
        (buildStats (runJobs idHash 0 scenarioFetch [mkSourcemapUrl "/foo"] []).1)).getD 3 ""
      = "src/app.js (new)" ∧
    "src/app.js (new)" ≠ "./src/app.js (new)" := by
  refine ⟨by decide, by decide, by decide, by decide⟩

/-- C3 (amended): on `links.json = ["/foo"]` with the remote sourcemap
`sources = ["webpack:///src/app.js"]`, `sourcesContent = ["const x=1;"]`
and an empty mirror, exactly one file is written, at local path
`src/app.js`; the emitted FileOutcome has `isChanged = true` and no
previous modification time; the commit-message header is
`"chore: Changed 1 file(s)"` and the changed-file line is
`"src/app.js (new)"` — for any hash function, clock and collator. -/
theorem c3_scenario (hash : String → String) (now : Int)
    (cmp : String → String → Ordering) :
    (runJobs hash now scenarioFetch [mkSourcemapUrl "/foo"] []).1 =
      [{ url := "https://spaces.im/foo.map", success := true,
         files := [{ path := "src/app.js", isChanged := true,
                     previousModified := none }],
         error := none }] ∧
    (runMain hash now scenarioFetch cmp ["/foo"] []).2 =
      [("src/app.js", { content := "const x=1;", mtime := now, readError := none })] ∧
    buildLines cmp now
        (buildStats (runJobs hash now scenarioFetch [mkSourcemapUrl "/foo"] []).1) =
      ["chore: Changed 1 file(s)", "\nChanged files (1):", "\n<pre>",
       "src/app.js (new)", "</pre>"] ∧
    (runMain hash now scenarioFetch cmp ["/foo"] []).1 =
      RunResult.wroteReports
        "chore: Changed 1 file(s)\n\nChanged files (1):\n\nsrc/app.js (new)"
        "\nChanged files (1):\n\n<pre>\nsrc/app.js (new)\n</pre>" := by
  have hjobs : (runJobs hash now scenarioFetch [mkSourcemapUrl "/foo"] []).1 =
      [{ url := "https://spaces.im/foo.map", success := true,
         files := [{ path := "src/app.js", isChanged := true,
                     previousModified := none }],
         error := none }] := rfl
  have hmain : (runMain hash now scenarioFetch cmp ["/foo"] []).1 =
      mainFinish cmp now (runJobs hash now scenarioFetch [mkSourcemapUrl "/foo"] []).1 := rfl
  refine ⟨hjobs, rfl, ?_, ?_⟩
  · rw [hjobs]
    rfl
  · rw [hmain, hjobs]
    rfl

theorem jsRoundDiv_nonpos (d m : Int) (hd : d < 0) (hm : 0 < m) :
    jsRoundDiv d m ≤ 0 := by
  unfold jsRoundDiv
  rw [Int.fdiv_eq_ediv _ (by omega)]
  have h1 : (2 * d + m) / (2 * m) < 1 :=
    (Int.ediv_lt_iff_lt_mul (by omega)).mpr (by omega)
  omega

theorem jsRoundDiv_nonneg (d m : Int) (hd : 0 ≤ d) (hm : 0 < m) :
    0 ≤ jsRoundDiv d m := by
  unfold jsRoundDiv
  rw [Int.fdiv_eq_ediv _ (by omega)]
  exact Int.ediv_nonneg (by omega) (by omega)

theorem relTimeFormat_ago (v : Int) (b : Bool) (unit : String)
    (h : v < 0 ∨ (v = 0 ∧ b = true)) :
    ∃ s, relTimeFormat v b unit = s ++ " ago" := by
  refine ⟨toString (-v) ++ " " ++ (if v = 1 || v = -1 then unit else unit ++ "s"), ?_⟩
  simp only [relTimeFormat]
  rw [if_pos h]

theorem relTimeFormat_in (v : Int) (b : Bool) (unit : String)
    (h : ¬(v < 0 ∨ (v = 0 ∧ b = true))) :
    ∃ s, relTimeFormat v b unit = "in " ++ s := by
  refine ⟨toString v ++ (" " ++ (if v = 1 || v = -1 then unit else unit ++ "s")), ?_⟩
  simp only [relTimeFormat]
  rw [if_neg h, String.append_assoc, String.append_assoc]

theorem formatTimeSince_select (now time : Int) :
    ∃ u ∈ UNITS,
      formatTimeSince now time =
        relTimeFormat (jsRoundDiv (time - now) u.2) (decide (time - now < 0)) u.1 ∧
      ((time - now).natAbs ≥ u.2.toNat ∨ u.1 = "second") ∧
      ∀ v ∈ UNITS, (time - now).natAbs ≥ v.2.toNat → v.2 ≤ u.2 := by
  by_cases h1 : 31536000000 ≤ (time - now).natAbs
  · refine ⟨("year", 31536000000), by decide, ?_, Or.inl (by simpa using h1), ?_⟩
    · simp [formatTimeSince, formatTimeSinceGo, UNITS, h1]
    · intro v hv hp
      fin_cases hv <;> simp only [Int.toNat_ofNat] at hp ⊢ <;> omega
  · by_cases h2 : 2628000000 ≤ (time - now).natAbs
    · refine ⟨("month", 2628000000), by decide, ?_, Or.inl (by simpa using h2), ?_⟩
      · simp [formatTimeSince, formatTimeSinceGo, UNITS, h1, h2]
      · intro v hv hp
        fin_cases hv <;> simp only [Int.toNat_ofNat] at hp ⊢ <;> omega
    · by_cases h3 : 604800000 ≤ (time - now).natAbs
      · refine ⟨("week", 604800000), by decide, ?_, Or.inl (by simpa using h3), ?_⟩
        · simp [formatTimeSince, formatTimeSinceGo, UNITS, h1, h2, h3]
        · intro v hv hp
          fin_cases hv <;> simp only [Int.toNat_ofNat] at hp ⊢ <;> omega
      · by_cases h4 : 86400000 ≤ (time - now).natAbs
        · refine ⟨("day", 86400000), by decide, ?_, Or.inl (by simpa using h4), ?_⟩
          · simp [formatTimeSince, formatTimeSinceGo, UNITS, h1, h2, h3, h4]
          · intro v hv hp
            fin_cases hv <;> simp only [Int.toNat_ofNat] at hp ⊢ <;> omega
        · by_cases h5 : 3600000 ≤ (time - now).natAbs
          · refine ⟨("hour", 3600000), by decide, ?_, Or.inl (by simpa using h5), ?_⟩
            · simp [formatTimeSince, formatTimeSinceGo, UNITS, h1, h2, h3, h4, h5]
            · intro v hv hp
              fin_cases hv <;> simp only [Int.toNat_ofNat] at hp ⊢ <;> omega
          · by_cases h6 : 60000 ≤ (time - now).natAbs
            · refine ⟨("minute", 60000), by decide, ?_, Or.inl (by simpa using h6), ?_⟩
              · simp [formatTimeSince, formatTimeSinceGo, UNITS, h1, h2, h3, h4, h5, h6]
              · intro v hv hp
                fin_cases hv <;> simp only [Int.toNat_ofNat] at hp ⊢ <;> omega
            · refine ⟨("second", 1000), by decide, ?_, Or.inr rfl, ?_⟩
              · simp [formatTimeSince, formatTimeSinceGo, UNITS, h1, h2, h3, h4, h5, h6]
              · intro v hv hp
                fin_cases hv <;> simp only [Int.toNat_ofNat] at hp ⊢ <;> omega

/-- C8: `formatTimeSince` selects the first unit in the descending list
year > month > week > day > hour > minute > second whose millisecond
threshold is met by `|diff|` (which is therefore the largest such unit),
falling back to seconds; renders `Math.round(diff / unitMs)` as a
long-form English relative phrase whose direction follows the sign of
`diff`; a timestamp exactly 3 days in the past formats as `"3 days ago"`
and one 30 seconds in the future as `"in 30 seconds"`. -/
theorem c8_relative_time_format (now time : Int) :
    (∃ u ∈ UNITS,
      formatTimeSince now time =
        relTimeFormat (jsRoundDiv (time - now) u.2) (decide (time - now < 0)) u.1 ∧
      ((time - now).natAbs ≥ u.2.toNat ∨ u.1 = "second") ∧
      ∀ v ∈ UNITS, (time - now).natAbs ≥ v.2.toNat → v.2 ≤ u.2) ∧
    (time - now < 0 → ∃ s, formatTimeSince now time = s ++ " ago") ∧
    (0 ≤ time - now → ∃ s, formatTimeSince now time = "in " ++ s) ∧
    formatTimeSince now (now - 3 * 86400000) = "3 days ago" ∧
    formatTimeSince now (now + 30000) = "in 30 seconds" := by
  obtain ⟨u, hu, heq, hmet, hmax⟩ := formatTimeSince_select now time
  have hm : 0 < u.2 := by fin_cases hu <;> decide
  refine ⟨⟨u, hu, heq, hmet, hmax⟩, ?_, ?_, ?_, ?_⟩
  · intro hd
    rw [heq]
    apply relTimeFormat_ago
    have hv := jsRoundDiv_nonpos (time - now) u.2 hd hm
    rcases lt_or_eq_of_le hv with h | h
    · exact Or.inl h
    · exact Or.inr ⟨h, by simp [hd]⟩
  · intro hd
    rw [heq]
    apply relTimeFormat_in
    have hv := jsRoundDiv_nonneg (time - now) u.2 hd hm
    intro hcon
    rcases hcon with h | ⟨h0, hb⟩
    · omega
    · simp at hb
      omega
  · have hd3 : now - 3 * 86400000 - now = (-259200000 : Int) := by ring
    unfold formatTimeSince
    rw [hd3]
    decide
  · have hd30 : now + 30000 - now = (30000 : Int) := by ring
    unfold formatTimeSince
    rw [hd30]
    decide

theorem chunksList_flatten {α : Type} (bs : Nat) (hbs : 0 < bs) :
    ∀ (items : List α), (chunksList items bs hbs).flatten = items := by
  intro items
  generalize hn : items.length = n
  induction n using Nat.strong_induction_on generalizing items with
  | _ n ih =>
    cases items with
    | nil => rw [chunksList]; rfl
    | cons x xs =>
      rw [chunksList]
      rw [List.flatten_cons]
      rw [ih ((x :: xs).drop bs).length ?_ _ rfl]
      · exact List.take_append_drop bs (x :: xs)
      · subst hn
        simp only [List.length_drop, List.length_cons]
        omega

theorem chunksList_length_le {α : Type} (bs : Nat) (hbs : 0 < bs) :
    ∀ (items : List α), ∀ c ∈ chunksList items bs hbs, c.length ≤ bs := by
  intro items
  generalize hn : items.length = n
  induction n using Nat.strong_induction_on generalizing items with
  | _ n ih =>
    cases items with
    | nil => rw [chunksList]; intro c hc; simp at hc
    | cons x xs =>
      rw [chunksList]
      intro c hc
      rcases List.mem_cons.mp hc with rfl | hc
      · simp only [List.length_take]
        omega
      · refine ih ((x :: xs).drop bs).length ?_ _ rfl c hc
        subst hn
        simp only [List.length_drop, List.length_cons]
        omega

theorem find_settle {α β : Type} (job : α → β) (batch : List α) :
    ∀ (order : List Nat) (j : Nat) (hj : j < batch.length), j ∈ order →
    (settleEvents job batch order).find? (fun e => e.1 == j) =
      some (j, job (batch.get ⟨j, hj⟩)) := by
  intro order
  induction order with
  | nil => intro j hj hmem; simp at hmem
  | cons i rest ih =>
    intro j hj hmem
    by_cases hij : i = j
    · subst hij
      rw [settleEvents, List.filterMap_cons, List.get?_eq_get hj]
      simp only [Option.map_some']
      exact List.find?_cons_of_pos _ (by simp)
    · have hjr : j ∈ rest := by
        rcases List.mem_cons.mp hmem with h | h
        · exact absurd h.symm hij
        · exact h
      rw [settleEvents, List.filterMap_cons]
      cases hgi : batch.get? i with
      | none =>
        simpa [settleEvents] using ih j hj hjr
      | some x =>
        simp only [Option.map_some']
        rw [List.find?_cons_of_neg _ (by simp [hij])]
        simpa [settleEvents] using ih j hj hjr

theorem promiseAll_perm {α β : Type} (job : α → β) (batch : List α)
    (order : List Nat) (hperm : order.Perm (List.range batch.length)) :
    promiseAll job batch order = batch.map (fun x => some (job x)) := by
  apply List.ext_getElem
  · simp [promiseAll]
  · intro j h1 h2
    have hj : j < batch.length := by simpa using h2
    have hmem : j ∈ order := hperm.mem_iff.mpr (List.mem_range.mpr hj)
    simp only [promiseAll, List.getElem_map, List.getElem_range]
    rw [find_settle job batch order j hj hmem]
    simp [List.get_eq_getElem]

theorem processChunks_correct {α β : Type} (job : α → β) (orders : Nat → List Nat) :
    ∀ (cs : List (List α)) (k : Nat),
    (∀ (k' : Nat) (c : List α), cs.get? k' = some c →
      (orders (k + k')).Perm (List.range c.length)) →
    processChunks job orders cs k =
      (cs.map (fun c => c.map (fun x => some (job x)))).flatten := by
  intro cs
  induction cs with
  | nil => intro k _; rfl
  | cons c rest ih =>
    intro k hord
    rw [processChunks, List.map_cons, List.flatten_cons]
    have h0 : (orders k).Perm (List.range c.length) := by
      have := hord 0 c rfl
      simpa using this
    rw [promiseAll_perm job c (orders k) h0]
    rw [ih (k + 1) ?_]
    intro k' c' hk'
    have := hord (k' + 1) c' (by simpa using hk')
    have harith : k + (k' + 1) = k + 1 + k' := by omega
    rwa [harith] at this

theorem traceChunks_tag_ge {α : Type} (orders : Nat → List Nat) :
    ∀ (cs : List (List α)) (k : Nat) (e : Nat × Nat),
    e ∈ traceChunks (α := α) orders cs k → k ≤ e.1 := by
  intro cs
  induction cs with
  | nil => intro k e he; simp [traceChunks] at he
  | cons c rest ih =>
    intro k e he
    rw [traceChunks] at he
    rcases List.mem_append.mp he with h | h
    · obtain ⟨i, -, rfl⟩ := List.mem_map.mp h
      exact Nat.le_refl k
    · exact Nat.le_of_succ_le (ih (k + 1) e h)

theorem traceChunks_mono {α : Type} (orders : Nat → List Nat) :
    ∀ (cs : List (List α)) (k : Nat),
    List.Pairwise (fun a b => a.1 ≤ b.1) (traceChunks (α := α) orders cs k) := by
  intro cs
  induction cs with
  | nil => intro k; simp [traceChunks]
  | cons c rest ih =>
    intro k
    rw [traceChunks]
    rw [List.pairwise_append]
    refine ⟨?_, ih (k + 1), ?_⟩
    · rw [List.pairwise_map]
      exact List.Pairwise.imp (fun _ => Nat.le_refl k)
        (List.pairwise_iff_forall_sublist.mpr (fun _ => trivial))
    · intro a ha b hb
      obtain ⟨i, -, rfl⟩ := List.mem_map.mp ha
      exact Nat.le_of_succ_le (traceChunks_tag_ge orders rest (k + 1) b hb)

/-- C5: `processInBatches` partitions the input into consecutive chunks of
at most `batchSize`; the result sequence, reassembled by `Promise.all`
from any settlement order that is a permutation of each chunk's indices,
equals the input order mapped through the job (same length, `result[j]`
is the job's value on `items[j]`); and in the run's event trace every
settlement of chunk `K` precedes every settlement of chunk `K+1` (chunk
tags are monotone). -/
theorem c5_batch_scheduler {α β : Type} (items : List α) (bs : Nat)
    (hbs : 0 < bs) (job : α → β) (orders : Nat → List Nat)
    (hord : ∀ (k : Nat) (c : List α), (chunksList items bs hbs).get? k = some c →
      (orders k).Perm (List.range c.length)) :
    (chunksList items bs hbs).flatten = items ∧
    (∀ c ∈ chunksList items bs hbs, c.length ≤ bs) ∧
    processInBatches items bs hbs job orders =
      items.map (fun x => some (job x)) ∧
    (processInBatches items bs hbs job orders).length = items.length ∧
    (∀ (j : Nat) (hj : j < items.length),
      (processInBatches items bs hbs job orders).get? j =
        some (some (job (items.get ⟨j, hj⟩)))) ∧
    List.Pairwise (fun a b => a.1 ≤ b.1) (batchTrace items bs hbs orders) := by
  have hmain : processInBatches items bs hbs job orders =
      items.map (fun x => some (job x)) := by
    unfold processInBatches
    rw [processChunks_correct job orders (chunksList items bs hbs) 0
      (fun k' c hk' => by simpa using hord k' c hk')]
    rw [← List.map_flatten, chunksList_flatten bs hbs items]
  refine ⟨chunksList_flatten bs hbs items, chunksList_length_le bs hbs items,
    hmain, ?_, ?_, traceChunks_mono orders (chunksList items bs hbs) 0⟩
  · rw [hmain, List.length_map]
  · intro j hj
    rw [hmain, List.get?_eq_getElem?, List.getElem?_map, ← List.get?_eq_getElem?,
      List.get?_eq_get hj]
    rfl

theorem c5_batch_scheduler_witness :
    processInBatches [10, 20, 30, 40, 50] 2 (Nat.succ_pos 1)
        (fun x => x + 1) demoOrders =
      [some 11, some 21, some 31, some 41, some 51] := by
  have e1 : chunksList ([10, 20, 30, 40, 50] : List Nat) 2 (Nat.succ_pos 1) =
      [10, 20] :: chunksList [30, 40, 50] 2 (Nat.succ_pos 1) := by
    rw [chunksList.eq_def]
    rfl
  have e2 : chunksList ([30, 40, 50] : List Nat) 2 (Nat.succ_pos 1) =
      [30, 40] :: chunksList [50] 2 (Nat.succ_pos 1) := by
    rw [chunksList.eq_def]
    rfl
  have e3 : chunksList ([50] : List Nat) 2 (Nat.succ_pos 1) =
      [50] :: chunksList [] 2 (Nat.succ_pos 1) := by
    rw [chunksList.eq_def]
    rfl
  have e4 : chunksList ([] : List Nat) 2 (Nat.succ_pos 1) = [] := by
    rw [chunksList.eq_def]
  have hch : chunksList ([10, 20, 30, 40, 50] : List Nat) 2 (Nat.succ_pos 1) =
      [[10, 20], [30, 40], [50]] := by
    rw [e1, e2, e3, e4]
  have hord : ∀ (k : Nat) (c : List Nat),
      (chunksList ([10, 20, 30, 40, 50] : List Nat) 2 (Nat.succ_pos 1)).get? k = some c →
      (demoOrders k).Perm (List.range c.length) := by
    intro k c hk
    rw [hch] at hk
    match k with
    | 0 =>
      simp only [List.get?] at hk
      cases hk
      decide
    | 1 =>
      simp only [List.get?] at hk
      cases hk
      decide
    | 2 =>
      simp only [List.get?] at hk
      cases hk
      decide
    | n + 3 => simp [List.get?] at hk
  have h := (c5_batch_scheduler [10, 20, 30, 40, 50] 2 (Nat.succ_pos 1)
    (fun x => x + 1) demoOrders hord).2.2.1
  rw [h]
  rfl

end SpacesTracker
